import Mathlib

set_option autoImplicit false

namespace Cloudzy

/-! Shallow embedding of src/cloudzy/search_engine.py: the FAISS-backed
SearchEngine (vector store, exhaustive nearest-neighbor search, greedy and
k-means album clustering, whole-file persistence). Vectors are modelled as
lists of rationals standing for the float32 values; photo ids as integers
(faiss stores them as int64). Calls into the faiss library are modelled by
their documented behavior, noted at each definition. -/

/-- Squared L2 distance between two vectors, as computed by faiss IndexFlatL2
(never square-rooted). -/
def sqDist (u v : List ℚ) : ℚ :=
  (List.zipWith (fun a b => (a - b) * (a - b)) u v).sum

/-- Model of the faiss index object held by SearchEngine: an IndexIDMap wrapping
an IndexFlatL2 of dimension d. Slot order is insertion order; each entry pairs
the external photo id from the id_map with the stored vector. -/
structure IndexIDMap where
  d : Nat
  entries : List (Int × List ℚ)
  deriving DecidableEq

/-- Well-formedness of an index: every stored vector has exactly d components
(faiss maintains this for every index it builds, since add_with_ids asserts the
input width). -/
def IndexIDMap.WF (idx : IndexIDMap) : Prop :=
  ∀ ent ∈ idx.entries, ent.2.length = idx.d

instance (idx : IndexIDMap) : Decidable idx.WF := by
  unfold IndexIDMap.WF; infer_instance

/-- Splits a flat list into n consecutive chunks of the given size. -/
def chunksN : Nat → Nat → List ℚ → List (List ℚ)
  | 0, _, _ => []
  | n + 1, size, l => l.take size :: chunksN n size (l.drop size)

/-- Model of the faiss.write_index serialization of an IndexIDMap over an
IndexFlatL2: the file records the dimension, the vector count, the id_map list,
and the flat vector data in slot order. -/
def writeIndex (idx : IndexIDMap) : List ℚ :=
  (idx.d : ℚ) :: (idx.entries.length : ℚ) ::
    ((idx.entries.map (fun ent => ((ent.1 : ℚ)))) ++ (idx.entries.map Prod.snd).flatten)

/-- Model of faiss.read_index: parses file contents back into an index, or fails
(faiss raises a RuntimeError) when the contents are malformed. -/
def readIndex (bytes : List ℚ) : Option IndexIDMap :=
  match bytes with
  | dq :: nq :: rest =>
    if dq.den = 1 ∧ 0 ≤ dq.num ∧ nq.den = 1 ∧ 0 ≤ nq.num then
      let d := dq.num.toNat
      let n := nq.num.toNat
      if rest.length = n + n * d ∧ (rest.take n).all (fun q => decide (q.den = 1)) then
        some ⟨d, List.zip ((rest.take n).map Rat.num) (chunksN n d (rest.drop n))⟩
      else none
    else none
  | _ => none

/-- Python exception outcomes. search_engine.py defines no exception classes of
its own: failures propagate from the faiss library as an untyped RuntimeError
(read_index on a malformed file) or an AssertionError (the python wrapper checks
on vector width). The last two constructors name the typed errors described in
the specification; no operation modelled here ever produces them. -/
inductive Err where
  | runtimeError
  | assertionError
  | dimensionMismatchError
  | corruptStoreError
  deriving DecidableEq

deriving instance DecidableEq for Except

/-- State of a SearchEngine object: the configured dimension, the contents of
the file at index_path (none when the file does not exist), and the in-memory
index. -/
structure SearchEngine where
  dim : Nat
  disk : Option (List ℚ)
  index : IndexIDMap
  deriving DecidableEq

/-- SearchEngine.load: reload the index from disk, replacing in-memory state; a
missing file yields a fresh empty IndexIDMap(IndexFlatL2(dim)); a malformed file
raises from faiss.read_index. -/
def SearchEngine.load (e : SearchEngine) : Except Err SearchEngine :=
  match e.disk with
  | none => .ok { e with index := ⟨e.dim, []⟩ }
  | some bytes =>
    match readIndex bytes with
    | some idx => .ok { e with index := idx }
    | none => .error .runtimeError

/-- SearchEngine.save: faiss.write_index overwrites the file at index_path with
the serialized in-memory index. -/
def SearchEngine.save (e : SearchEngine) : SearchEngine :=
  { e with disk := some (writeIndex e.index) }

/-- SearchEngine.add_embedding: appends the vector under the given id via
add_with_ids (whose python wrapper asserts that the reshaped vector width equals
the index dimension), then saves the whole index to disk before returning. -/
def SearchEngine.add_embedding (e : SearchEngine) (photo_id : Int)
    (embedding : List ℚ) : Except Err SearchEngine :=
  if embedding.length = e.index.d then
    .ok (SearchEngine.save
      { e with index := ⟨e.index.d, e.index.entries ++ [(photo_id, embedding)]⟩ })
  else .error .assertionError

/-- Inserts a scored pair into a list kept sorted by ascending distance. -/
def insertByDist (p : Int × ℚ) : List (Int × ℚ) → List (Int × ℚ)
  | [] => [p]
  | q :: rest => if p.2 < q.2 then p :: q :: rest else q :: insertByDist p rest

/-- Sorts scored pairs by ascending distance. -/
def sortByDist (l : List (Int × ℚ)) : List (Int × ℚ) :=
  l.foldr insertByDist []

/-- Distance value faiss reports in padded result slots (FLT_MAX). -/
def padDist : ℚ := 2 ^ 128 - 2 ^ 104

/-- Model of IndexIDMap.search over an IndexFlatL2 base: exhaustively scores
every stored vector against the query, returns the k nearest (id, squared
distance) pairs in ascending order, padding with id -1 when fewer than k vectors
are stored. -/
def IndexIDMap.search (idx : IndexIDMap) (q : List ℚ) (k : Nat) : List (Int × ℚ) :=
  let sorted := sortByDist (idx.entries.map (fun ent => (ent.1, sqDist q ent.2)))
  sorted.take k ++ List.replicate (k - sorted.length) (-1, padDist)

/-- SearchEngine.search: reloads from disk, returns [] when the store is empty
(before any width check), otherwise searches (the faiss wrapper asserts the
query width equals the index dimension) and keeps the results whose id is not -1
and whose distance is at most the hard-coded threshold 1.5. -/
def SearchEngine.search (e : SearchEngine) (query_embedding : List ℚ)
    (top_k : Nat) : Except Err (List (Int × ℚ)) :=
  match e.load with
  | .error err => .error err
  | .ok e1 =>
    if e1.index.entries.length = 0 then .ok []
    else if query_embedding.length = e1.index.d then
      .ok ((e1.index.search query_embedding top_k).filter
        (fun p => decide (p.1 ≠ -1) && decide (p.2 ≤ 3 / 2)))
    else .error .assertionError

/-- One pass over a search-result list building an album: a returned pid is kept
when it is not -1, not yet visited, and within the distance threshold; a kept
pid enters the visited set at once, so a duplicate of it later in the same
result list is skipped. Returns the album and the updated visited set. -/
def buildAlbum (thr : ℚ) : List (Int × ℚ) → List Int → List Int × List Int
  | [], visited => ([], visited)
  | p :: rest, visited =>
    if p.1 ≠ -1 ∧ p.1 ∉ visited ∧ p.2 ≤ thr then
      let next := buildAlbum thr rest (p.1 :: visited)
      (p.1 :: next.1, next.2)
    else buildAlbum thr rest visited

/-- The order/visited/albums loop of SearchEngine.create_albums. The embedding
cache (photo id to database embedding; none when the photo row is absent or has
no stored embedding) is a parameter standing for the batch database fetch. An
album is appended only when non-empty; the loop stops once top_k albums exist. -/
def albumsLoop (idx : IndexIDMap) (cache : Int → Option (List ℚ)) (top_k : Nat)
    (thr : ℚ) (album_size : Nat) :
    List Int → List Int → List (List Int) → Except Err (List (List Int))
  | [], _, albums => .ok albums
  | pid :: rest, visited, albums =>
    if top_k ≤ albums.length then .ok albums
    else if pid ∈ visited then
      albumsLoop idx cache top_k thr album_size rest visited albums
    else
      match cache pid with
      | none => albumsLoop idx cache top_k thr album_size rest visited albums
      | some emb =>
        if emb.length = idx.d then
          let built := buildAlbum thr (idx.search emb album_size) visited
          if built.1 = [] then
            albumsLoop idx cache top_k thr album_size rest built.2 albums
          else
            albumsLoop idx cache top_k thr album_size rest built.2 (albums ++ [built.1])
        else .error .assertionError

/-- SearchEngine.create_albums: reloads, returns [] on an empty store, then runs
the greedy loop over the shuffled id list. random.shuffle draws on the global
python RNG, so the reordering it applies is a parameter here. -/
def SearchEngine.create_albums (e : SearchEngine) (shuffle : List Int → List Int)
    (cache : Int → Option (List ℚ)) (top_k : Nat) (distance_threshold : ℚ)
    (album_size : Nat) : Except Err (List (List Int)) :=
  match e.load with
  | .error err => .error err
  | .ok e1 =>
    if e1.index.entries.length = 0 then .ok []
    else albumsLoop e1.index cache top_k distance_threshold album_size
      (shuffle (e1.index.entries.map Prod.fst)) [] []

/-- A 64-bit linear congruential step, modelling the seeded RNG faiss.Kmeans
uses when picking initial centroids. -/
def lcgNext (s : Nat) : Nat := (6364136223846793005 * s + 1442695040888963407) % 2 ^ 64

/-- Deterministic pseudo-random reordering of the training points driven by a
seed (fuel is the list length), modelling the seeded subsampling faiss.Kmeans
performs for centroid initialization; its only properties used below are that it
is a function of the seed and the points and that it preserves length. -/
def pseudoPerm : Nat → Nat → List (List ℚ) → List (List ℚ)
  | 0, _, _ => []
  | fuel + 1, seed, l =>
    if l.length = 0 then []
    else
      l.getD (seed % l.length) [] :: pseudoPerm fuel (lcgNext seed) (l.eraseIdx (seed % l.length))

/-- Accumulator loop for argminIdx, tracking the best value, best position and
current position. -/
def argminGo : List ℚ → ℚ → Nat → Nat → Nat
  | [], _, best, _ => best
  | x :: xs, bv, best, cur =>
    if x < bv then argminGo xs x cur (cur + 1) else argminGo xs bv best (cur + 1)

/-- Position of the smallest element of a list (first among ties), as the
nearest-centroid lookup kmeans.index.search performs with k = 1. -/
def argminIdx : List ℚ → Nat
  | [] => 0
  | x :: xs => argminGo xs x 0 1

/-- Cluster index assigned to a point: its nearest centroid by squared L2
distance. -/
def assignPoint (cents : List (List ℚ)) (p : List ℚ) : Nat :=
  argminIdx (cents.map (fun c => sqDist p c))

/-- Componentwise sum of two vectors. -/
def vadd (u v : List ℚ) : List ℚ := List.zipWith (fun a b => a + b) u v

/-- Mean of the points assigned to a cluster; an empty cluster keeps its
previous centroid. -/
def clusterMean (old : List ℚ) : List (List ℚ) → List ℚ
  | [] => old
  | p :: rest => (rest.foldl vadd p).map (fun x => x / ((rest.length + 1 : Nat) : ℚ))

/-- One Lloyd iteration: reassign every point to its nearest centroid and
replace each centroid by the mean of its cluster. -/
def lloydStep (pts : List (List ℚ)) (cents : List (List ℚ)) : List (List ℚ) :=
  cents.enum.map
    (fun ic => clusterMean ic.2 (pts.filter (fun p => decide (assignPoint cents p = ic.1))))

/-- Bounded iteration of Lloyd steps. -/
def lloydIter (pts : List (List ℚ)) : Nat → List (List ℚ) → List (List ℚ)
  | 0, cents => cents
  | n + 1, cents => lloydIter pts n (lloydStep pts cents)

/-- Model of faiss.Kmeans(d, k, niter, seed).train: a seeded choice of k initial
centroids among the training points followed by niter Lloyd iterations. -/
def kmeansCentroids (k niter : Nat) (seed : Int) (pts : List (List ℚ)) : List (List ℚ) :=
  lloydIter pts niter ((pseudoPerm pts.length seed.natAbs pts).take k)

/-- SearchEngine.create_albums_kmeans: reloads, returns [] when fewer than top_k
vectors are stored, trains k-means with 20 iterations and the given seed (the
faiss wrapper asserts the training data width equals the configured dimension),
assigns every stored vector to its nearest centroid, groups ids by cluster in
slot order, and drops empty clusters. For top_k = 0 with a non-empty store faiss
itself raises; only top_k at least 1 is modelled faithfully here. -/
def SearchEngine.create_albums_kmeans (e : SearchEngine) (top_k : Nat)
    (seed : Int) : Except Err (List (List Int)) :=
  match e.load with
  | .error err => .error err
  | .ok e1 =>
    if e1.index.entries.length < top_k then .ok []
    else if e1.index.d = e.dim then
      let cents := kmeansCentroids top_k 20 seed (e1.index.entries.map Prod.snd)
      let assigned := e1.index.entries.map (fun ent => (ent.1, assignPoint cents ent.2))
      .ok (((List.range top_k).map
        (fun c => (assigned.filter (fun a => decide (a.2 = c))).map Prod.fst)).filter
          (fun alb => decide (alb ≠ [])))
    else .error .assertionError

/-- A small concrete index used to exercise the theorems on explicit inputs. -/
def sampleIndex : IndexIDMap := ⟨1, [(1, [0]), (2, [7])]⟩

/-- An engine whose index file holds sampleIndex and whose in-memory index is
stale (empty), as after another process wrote the file. -/
def sampleEngine : SearchEngine := ⟨1, some (writeIndex sampleIndex), ⟨1, []⟩⟩

/-- A database embedding cache matching sampleIndex. -/
def sampleCache : Int → Option (List ℚ) :=
  fun i => if i = 1 then some [0] else if i = 2 then some [7] else none

/-- An engine whose index file does not exist. -/
def emptyEngine : SearchEngine := ⟨4, none, ⟨4, []⟩⟩

/-- An engine whose index file exists but is truncated garbage. -/
def corruptEngine : SearchEngine := ⟨4, some [1 / 2], ⟨4, []⟩⟩

/-! Helper lemmas about serialization. -/

theorem chunksN_flatten (d : Nat) :
    ∀ L : List (List ℚ), (∀ v ∈ L, v.length = d) →
      chunksN L.length d L.flatten = L := by
  intro L
  induction L with
  | nil => intro _; rfl
  | cons v rest ih =>
    intro h
    have hv : v.length = d := h v (by simp)
    simp only [List.length_cons, List.flatten_cons, chunksN]
    rw [List.take_left' hv, List.drop_left' hv, ih (fun w hw => h w (by simp [hw]))]

theorem length_flatten_const (d : Nat) :
    ∀ L : List (List ℚ), (∀ v ∈ L, v.length = d) →
      L.flatten.length = L.length * d := by
  intro L
  induction L with
  | nil => intro _; simp
  | cons v rest ih =>
    intro h
    simp only [List.flatten_cons, List.length_append, List.length_cons]
    rw [h v (by simp), ih (fun w hw => h w (by simp [hw]))]
    ring

theorem zip_map_fst_snd {α β : Type} (l : List (α × β)) :
    List.zip (l.map Prod.fst) (l.map Prod.snd) = l := by
  induction l with
  | nil => rfl
  | cons p rest ih => simp [List.zip, ih]

/-- Deserialization inverts serialization on every well-formed index. -/
theorem readIndex_writeIndex (idx : IndexIDMap) (hWF : idx.WF) :
    readIndex (writeIndex idx) = some idx := by
  have hAll : ∀ v ∈ idx.entries.map Prod.snd, v.length = idx.d := by
    intro v hv
    obtain ⟨ent, hent, rfl⟩ := List.mem_map.mp hv
    exact hWF ent hent
  have hn : (idx.entries.map (fun ent => ((ent.1 : ℚ)))).length = idx.entries.length :=
    List.length_map _ _
  have hflatlen : ((idx.entries.map Prod.snd).flatten).length = idx.entries.length * idx.d := by
    rw [length_flatten_const idx.d _ hAll, List.length_map]
  simp only [writeIndex, readIndex, Rat.den_natCast, Rat.num_natCast, Int.toNat_natCast]
  rw [if_pos (by simp), if_pos]
  · rw [List.take_left' hn, List.drop_left' hn]
    rw [List.map_map]
    have hids : (idx.entries.map (Rat.num ∘ fun ent => ((ent.1 : ℚ)))) = idx.entries.map Prod.fst := by
      apply List.map_congr_left
      intro ent _
      simp
    rw [hids]
    have hlenmap : idx.entries.length = (idx.entries.map Prod.snd).length := (List.length_map _ _).symm
    rw [hlenmap, chunksN_flatten idx.d _ hAll, zip_map_fst_snd]
  · constructor
    · rw [List.length_append, hn, hflatlen]
    · rw [List.take_left' hn]
      simp only [List.all_eq_true, List.mem_map]
      rintro q ⟨ent, _, rfl⟩
      simp

/-- C5: for every store, save followed by load succeeds and yields an index with
identical content — the same count and the same (identifier, vector) pairs. -/
theorem save_load_roundtrip (e : SearchEngine) (hWF : e.index.WF) :
    ∃ e1, e.save.load = .ok e1 ∧ e1.index = e.index := by
  refine ⟨e.save, ?_, rfl⟩
  simp [SearchEngine.load, SearchEngine.save, readIndex_writeIndex e.index hWF]

/-- C5 witness: the round trip at a concrete two-vector store. -/
theorem save_load_roundtrip_witness :
    ∃ e1, (SearchEngine.mk 1 none sampleIndex).save.load = .ok e1 ∧
      e1.index = sampleIndex :=
  save_load_roundtrip (SearchEngine.mk 1 none sampleIndex) (by decide)

/-- C4: after add_embedding returns successfully the whole store has been
persisted, so a fresh load from the same path yields exactly the old entries
plus the new (id, vector) pair. -/
theorem add_embedding_persists (e : SearchEngine) (photo_id : Int) (emb : List ℚ)
    (hWF : e.index.WF) (hlen : emb.length = e.index.d) :
    ∃ e1 e2, e.add_embedding photo_id emb = .ok e1 ∧ e1.load = .ok e2 ∧
      e2.index.entries = e.index.entries ++ [(photo_id, emb)] := by
  have hWF2 : IndexIDMap.WF ⟨e.index.d, e.index.entries ++ [(photo_id, emb)]⟩ := by
    intro ent hent
    rcases List.mem_append.mp hent with h | h
    · exact hWF ent h
    · simp only [List.mem_singleton] at h
      subst h
      exact hlen
  refine ⟨(SearchEngine.mk e.dim (some (writeIndex ⟨e.index.d, e.index.entries ++ [(photo_id, emb)]⟩))
    ⟨e.index.d, e.index.entries ++ [(photo_id, emb)]⟩), ?_⟩
  refine ⟨(SearchEngine.mk e.dim (some (writeIndex ⟨e.index.d, e.index.entries ++ [(photo_id, emb)]⟩))
    ⟨e.index.d, e.index.entries ++ [(photo_id, emb)]⟩), ?_, ?_, rfl⟩
  · simp [SearchEngine.add_embedding, hlen, SearchEngine.save]
  · simp [SearchEngine.load, readIndex_writeIndex _ hWF2]

/-- C4 witness: appending a vector to a concrete store and reloading it. -/
theorem add_embedding_persists_witness :
    ∃ e1 e2, emptyEngine.add_embedding 9 [1, 2, 3, 4] = .ok e1 ∧
      e1.load = .ok e2 ∧
      e2.index.entries = emptyEngine.index.entries ++ [(9, [1, 2, 3, 4])] :=
  add_embedding_persists emptyEngine 9 [1, 2, 3, 4] (by decide) (by decide)

/-- C9 counterexample: on a file that exists but cannot be deserialized, load
raises the untyped library error, not a typed CorruptStoreError (the code
defines no such class). -/
theorem corrupt_store_counterexample :
    corruptEngine.load = .error Err.runtimeError ∧
    corruptEngine.load ≠ .error Err.corruptStoreError := by decide

/-- C9 amended: load fails on a malformed existing file — with the untyped
library RuntimeError rather than a typed CorruptStoreError — and on a missing
file falls back to an empty index of the configured dimension. -/
theorem corrupt_load_amended :
    (∀ (e : SearchEngine) (bytes : List ℚ), e.disk = some bytes →
      readIndex bytes = none → e.load = .error .runtimeError) ∧
    (∀ e : SearchEngine, e.disk = none →
      e.load = .ok { e with index := ⟨e.dim, []⟩ }) := by
  constructor
  · intro e bytes hd hr
    simp [SearchEngine.load, hd, hr]
  · intro e hd
    simp [SearchEngine.load, hd]

/-- C9 amended witness: both halves at concrete engines. -/
theorem corrupt_load_amended_witness :
    corruptEngine.load = .error .runtimeError ∧
    emptyEngine.load = .ok { emptyEngine with index := ⟨emptyEngine.dim, []⟩ } :=
  ⟨corrupt_load_amended.1 corruptEngine [1 / 2] rfl (by decide),
   corrupt_load_amended.2 emptyEngine rfl⟩

/-- C8 counterexample: a query of the wrong length does not make the call fail
on an empty store — search returns the empty list before any width check. -/
theorem dimension_mismatch_counterexample :
    emptyEngine.search [0, 0, 0, 0, 0] 5 = .ok [] ∧
    ([(0 : ℚ), 0, 0, 0, 0].length ≠ emptyEngine.dim) := by decide

/-- C8 amended: a wrong-length vector makes add_embedding fail always, and makes
search fail exactly when the loaded store is non-empty — in both cases with the
library assertion error, not a typed DimensionMismatchError. -/
theorem dimension_mismatch_amended :
    (∀ (e : SearchEngine) (photo_id : Int) (emb : List ℚ),
      emb.length ≠ e.index.d →
      e.add_embedding photo_id emb = .error .assertionError) ∧
    (∀ (e e1 : SearchEngine) (q : List ℚ) (k : Nat), e.load = .ok e1 →
      e1.index.entries ≠ [] → q.length ≠ e1.index.d →
      e.search q k = .error .assertionError) := by
  constructor
  · intro e photo_id emb h
    simp [SearchEngine.add_embedding, h]
  · intro e e1 q k hl hne hq
    have hlen : e1.index.entries.length ≠ 0 := by
      simpa [List.length_eq_zero] using hne
    simp [SearchEngine.search, hl, hlen, hq]

/-- C8 amended witness: both halves at concrete engines. -/
theorem dimension_mismatch_amended_witness :
    emptyEngine.add_embedding 3 [0, 0] = .error .assertionError ∧
    sampleEngine.search [0, 0] 5 = .error .assertionError :=
  ⟨dimension_mismatch_amended.1 emptyEngine 3 [0, 0] (by decide),
   dimension_mismatch_amended.2 sampleEngine
     ⟨1, some (writeIndex sampleIndex), sampleIndex⟩ [0, 0] 5 (by decide)
     (by decide) (by decide)⟩

/-- C7: querying or clustering a store that loads empty returns the empty list
and never raises, for every query vector, top_k, shuffle and cache. -/
theorem empty_store_query_and_cluster (e e1 : SearchEngine)
    (hl : e.load = .ok e1) (he : e1.index.entries = []) :
    (∀ (q : List ℚ) (k : Nat), e.search q k = .ok []) ∧
    (∀ (shuffle : List Int → List Int) (cache : Int → Option (List ℚ))
      (k : Nat) (thr : ℚ) (asize : Nat),
      e.create_albums shuffle cache k thr asize = .ok []) := by
  constructor
  · intro q k
    simp [SearchEngine.search, hl, he]
  · intro shuffle cache k thr asize
    simp [SearchEngine.create_albums, hl, he]

/-- C7 witness: a concrete empty store, query and clustering call. -/
theorem empty_store_query_and_cluster_witness :
    emptyEngine.search [3] 5 = .ok [] ∧
    emptyEngine.create_albums id sampleCache 5 (3 / 2) 5 = .ok [] :=
  ⟨(empty_store_query_and_cluster emptyEngine emptyEngine rfl rfl).1 [3] 5,
   (empty_store_query_and_cluster emptyEngine emptyEngine rfl rfl).2 id
     sampleCache 5 (3 / 2) 5⟩

/-! Helper lemmas about the exhaustive index search. -/

theorem mem_insertByDist (p x : Int × ℚ) (l : List (Int × ℚ)) :
    p ∈ insertByDist x l ↔ p = x ∨ p ∈ l := by
  induction l with
  | nil => simp [insertByDist]
  | cons q rest ih =>
    simp only [insertByDist]
    split
    · simp
    · simp only [List.mem_cons, ih]
      tauto

theorem mem_sortByDist (p : Int × ℚ) (l : List (Int × ℚ)) :
    p ∈ sortByDist l ↔ p ∈ l := by
  unfold sortByDist
  induction l with
  | nil => simp
  | cons x rest ih =>
    simp only [List.foldr_cons, mem_insertByDist, List.mem_cons, ih]

theorem length_insertByDist (x : Int × ℚ) (l : List (Int × ℚ)) :
    (insertByDist x l).length = l.length + 1 := by
  induction l with
  | nil => rfl
  | cons q rest ih =>
    simp only [insertByDist]
    split <;> simp [ih]

theorem length_sortByDist (l : List (Int × ℚ)) :
    (sortByDist l).length = l.length := by
  unfold sortByDist
  induction l with
  | nil => rfl
  | cons x rest ih => simp [length_insertByDist, ih]

theorem length_index_search (idx : IndexIDMap) (q : List ℚ) (k : Nat) :
    (idx.search q k).length = k := by
  simp only [IndexIDMap.search, List.length_append, List.length_take,
    length_sortByDist, List.length_map, List.length_replicate]
  omega

theorem mem_index_search (idx : IndexIDMap) (q : List ℚ) (k : Nat) (p : Int × ℚ)
    (hp : p ∈ idx.search q k) :
    (∃ ent ∈ idx.entries, p = (ent.1, sqDist q ent.2)) ∨ p = (-1, padDist) := by
  simp only [IndexIDMap.search] at hp
  rcases List.mem_append.mp hp with h | h
  · left
    have hmem := (mem_sortByDist p _).mp (List.mem_of_mem_take h)
    obtain ⟨ent, hent, heq⟩ := List.mem_map.mp hmem
    exact ⟨ent, hent, heq.symm⟩
  · right
    exact (List.mem_replicate.mp h).2

/-- C1: search never returns a pair with distance above the 1.5 threshold nor
the sentinel id -1; when every stored vector is farther than the threshold from
the query, the result is empty. -/
theorem search_threshold_and_sentinel (e e1 : SearchEngine) (q : List ℚ) (k : Nat)
    (res : List (Int × ℚ)) (hl : e.load = .ok e1)
    (hres : e.search q k = .ok res) :
    (∀ p ∈ res, p.1 ≠ -1 ∧ p.2 ≤ 3 / 2) ∧
    ((∀ ent ∈ e1.index.entries, 3 / 2 < sqDist q ent.2) → res = []) := by
  simp only [SearchEngine.search, hl] at hres
  split at hres
  · cases hres
    exact ⟨by simp, fun _ => rfl⟩
  · split at hres
    · cases hres
      constructor
      · intro p hp
        have h2 := (List.mem_filter.mp hp).2
        simp only [Bool.and_eq_true, decide_eq_true_eq] at h2
        exact h2
      · intro hfar
        apply List.filter_eq_nil_iff.mpr
        intro p hp
        simp only [Bool.and_eq_true, decide_eq_true_eq, not_and]
        intro hpid
        rcases mem_index_search _ _ _ p hp with ⟨ent, hent, rfl⟩ | rfl
        · exact not_le.mpr (hfar ent hent)
        · exact absurd rfl hpid
    · cases hres

/-- C1 witness: a store whose only vectors are farther than the threshold from
the query yields an empty result. -/
theorem search_threshold_and_sentinel_witness :
    (∀ p ∈ ([] : List (Int × ℚ)), p.1 ≠ -1 ∧ p.2 ≤ 3 / 2) ∧
    ((∀ ent ∈ sampleIndex.entries, 3 / 2 < sqDist [10] ent.2) →
      ([] : List (Int × ℚ)) = []) :=
  search_threshold_and_sentinel sampleEngine
    ⟨1, some (writeIndex sampleIndex), sampleIndex⟩ [10] 5 []
    (by with_unfolding_all decide) (by with_unfolding_all decide)

/-! Helper lemmas about the greedy album construction. -/

theorem buildAlbum_spec (thr : ℚ) :
    ∀ (l : List (Int × ℚ)) (visited : List Int),
      (∀ m ∈ (buildAlbum thr l visited).1,
        m ∉ visited ∧ m ≠ -1 ∧ ∃ d, (m, d) ∈ l ∧ d ≤ thr) ∧
      (buildAlbum thr l visited).1.Nodup ∧
      (buildAlbum thr l visited).1.length ≤ l.length ∧
      (∀ x, x ∈ (buildAlbum thr l visited).2 ↔
        x ∈ visited ∨ x ∈ (buildAlbum thr l visited).1) := by
  intro l
  induction l with
  | nil => intro visited; simp [buildAlbum]
  | cons p rest ih =>
    intro visited
    by_cases hc : p.1 ≠ -1 ∧ p.1 ∉ visited ∧ p.2 ≤ thr
    · simp only [buildAlbum, if_pos hc]
      obtain ⟨ihm, ihnd, ihlen, ihvis⟩ := ih (p.1 :: visited)
      refine ⟨?_, ?_, ?_, ?_⟩
      · intro m hm
        rcases List.mem_cons.mp hm with heq | hm2
        · subst heq
          exact ⟨hc.2.1, hc.1, p.2, by simp, hc.2.2⟩
        · obtain ⟨hnv, hne, d, hd, hdt⟩ := ihm m hm2
          exact ⟨fun hmv => hnv (by simp [hmv]), hne, d, by simp [hd], hdt⟩
      · refine List.nodup_cons.mpr ⟨?_, ihnd⟩
        intro hmem
        exact (ihm p.1 hmem).1 (by simp)
      · simpa using Nat.succ_le_succ ihlen
      · intro x
        rw [ihvis x]
        simp only [List.mem_cons]
        tauto
    · simp only [buildAlbum, if_neg hc]
      obtain ⟨ihm, ihnd, ihlen, ihvis⟩ := ih visited
      refine ⟨?_, ihnd, Nat.le_succ_of_le ihlen, ihvis⟩
      intro m hm
      obtain ⟨hnv, hne, d, hd, hdt⟩ := ihm m hm
      exact ⟨hnv, hne, d, by simp [hd], hdt⟩

theorem albumsLoop_length (idx : IndexIDMap) (cache : Int → Option (List ℚ))
    (top_k : Nat) (thr : ℚ) (asize : Nat) :
    ∀ (order visited : List Int) (albums out : List (List Int)),
      albumsLoop idx cache top_k thr asize order visited albums = .ok out →
      out.length ≤ max albums.length top_k := by
  intro order
  induction order with
  | nil =>
    intro visited albums out h
    simp only [albumsLoop] at h
    cases h
    exact le_max_left _ _
  | cons pid rest ih =>
    intro visited albums out h
    simp only [albumsLoop] at h
    by_cases h1 : top_k ≤ albums.length
    · rw [if_pos h1] at h
      cases h
      exact le_max_left _ _
    · rw [if_neg h1] at h
      by_cases h2 : pid ∈ visited
      · rw [if_pos h2] at h
        exact ih _ _ _ h
      · rw [if_neg h2] at h
        cases hc : cache pid with
        | none =>
          rw [hc] at h
          exact ih _ _ _ h
        | some emb =>
          simp only [hc] at h
          by_cases h3 : emb.length = idx.d
          · rw [if_pos h3] at h
            by_cases h4 : (buildAlbum thr (idx.search emb asize) visited).1 = []
            · rw [if_pos h4] at h
              exact ih _ _ _ h
            · rw [if_neg h4] at h
              have h5 := ih _ _ _ h
              simp only [List.length_append, List.length_cons, List.length_nil] at h5
              omega
          · rw [if_neg h3] at h
            simp at h

theorem albumsLoop_seed (idx : IndexIDMap) (cache : Int → Option (List ℚ))
    (top_k : Nat) (thr : ℚ) (asize : Nat) :
    ∀ (order visited : List Int) (albums out : List (List Int)),
      albumsLoop idx cache top_k thr asize order visited albums = .ok out →
      (∀ a ∈ albums, ∃ sid emb, cache sid = some emb ∧
        ∀ m ∈ a, ∃ v, (m, v) ∈ idx.entries ∧ sqDist emb v ≤ thr) →
      ∀ a ∈ out, ∃ sid emb, cache sid = some emb ∧
        ∀ m ∈ a, ∃ v, (m, v) ∈ idx.entries ∧ sqDist emb v ≤ thr := by
  intro order
  induction order with
  | nil =>
    intro visited albums out h hP
    simp only [albumsLoop] at h
    cases h
    exact hP
  | cons pid rest ih =>
    intro visited albums out h hP
    simp only [albumsLoop] at h
    by_cases h1 : top_k ≤ albums.length
    · rw [if_pos h1] at h
      cases h
      exact hP
    · rw [if_neg h1] at h
      by_cases h2 : pid ∈ visited
      · rw [if_pos h2] at h
        exact ih _ _ _ h hP
      · rw [if_neg h2] at h
        cases hc : cache pid with
        | none =>
          rw [hc] at h
          exact ih _ _ _ h hP
        | some emb =>
          simp only [hc] at h
          by_cases h3 : emb.length = idx.d
          · rw [if_pos h3] at h
            by_cases h4 : (buildAlbum thr (idx.search emb asize) visited).1 = []
            · rw [if_pos h4] at h
              exact ih _ _ _ h hP
            · rw [if_neg h4] at h
              refine ih _ _ _ h ?_
              intro a ha
              rcases List.mem_append.mp ha with ha2 | ha2
              · exact hP a ha2
              · simp only [List.mem_singleton] at ha2
                subst ha2
                refine ⟨pid, emb, hc, ?_⟩
                intro m hm
                obtain ⟨-, hne, d, hd, hdt⟩ :=
                  (buildAlbum_spec thr (idx.search emb asize) visited).1 m hm
                rcases mem_index_search _ _ _ _ hd with ⟨ent, hent, heq⟩ | heq
                · obtain ⟨hm1, hd1⟩ := Prod.mk.injEq .. ▸ heq
                  refine ⟨ent.2, ?_, ?_⟩
                  · rw [hm1]
                    simpa using hent
                  · rw [hd1] at hdt
                    exact hdt
                · exact absurd (congrArg Prod.fst heq) hne
          · rw [if_neg h3] at h
            simp at h

theorem albumsLoop_disjoint (idx : IndexIDMap) (cache : Int → Option (List ℚ))
    (top_k : Nat) (thr : ℚ) (asize : Nat) :
    ∀ (order visited : List Int) (albums out : List (List Int)),
      albumsLoop idx cache top_k thr asize order visited albums = .ok out →
      (∀ a ∈ albums, ∀ x ∈ a, x ∈ visited) →
      List.Pairwise (fun a b => ∀ x ∈ a, x ∉ b) albums →
      (∀ a ∈ albums, a.Nodup) →
      (∀ a ∈ albums, a.length ≤ asize) →
      List.Pairwise (fun a b => ∀ x ∈ a, x ∉ b) out ∧
        ∀ a ∈ out, a.Nodup ∧ a.length ≤ asize := by
  intro order
  induction order with
  | nil =>
    intro visited albums out h hvis hpw hnd hlen
    simp only [albumsLoop] at h
    cases h
    exact ⟨hpw, fun a ha => ⟨hnd a ha, hlen a ha⟩⟩
  | cons pid rest ih =>
    intro visited albums out h hvis hpw hnd hlen
    simp only [albumsLoop] at h
    by_cases h1 : top_k ≤ albums.length
    · rw [if_pos h1] at h
      cases h
      exact ⟨hpw, fun a ha => ⟨hnd a ha, hlen a ha⟩⟩
    · rw [if_neg h1] at h
      by_cases h2 : pid ∈ visited
      · rw [if_pos h2] at h
        exact ih _ _ _ h hvis hpw hnd hlen
      · rw [if_neg h2] at h
        cases hc : cache pid with
        | none =>
          rw [hc] at h
          exact ih _ _ _ h hvis hpw hnd hlen
        | some emb =>
          simp only [hc] at h
          by_cases h3 : emb.length = idx.d
          · rw [if_pos h3] at h
            obtain ⟨bm, bnd, blen, bvis⟩ :=
              buildAlbum_spec thr (idx.search emb asize) visited
            by_cases h4 : (buildAlbum thr (idx.search emb asize) visited).1 = []
            · rw [if_pos h4] at h
              refine ih _ _ _ h ?_ hpw hnd hlen
              intro a ha x hx
              exact (bvis x).mpr (Or.inl (hvis a ha x hx))
            · rw [if_neg h4] at h
              refine ih _ _ _ h ?_ ?_ ?_ ?_
              · intro a ha x hx
                rcases List.mem_append.mp ha with ha2 | ha2
                · exact (bvis x).mpr (Or.inl (hvis a ha2 x hx))
                · simp only [List.mem_singleton] at ha2
                  subst ha2
                  exact (bvis x).mpr (Or.inr hx)
              · rw [List.pairwise_append]
                refine ⟨hpw, by simp, ?_⟩
                intro a ha b hb x hx
                simp only [List.mem_singleton] at hb
                subst hb
                intro hxb
                exact (bm x hxb).1 (hvis a ha x hx)
              · intro a ha
                rcases List.mem_append.mp ha with ha2 | ha2
                · exact hnd a ha2
                · simp only [List.mem_singleton] at ha2
                  subst ha2
                  exact bnd
              · intro a ha
                rcases List.mem_append.mp ha with ha2 | ha2
                · exact hlen a ha2
                · simp only [List.mem_singleton] at ha2
                  subst ha2
                  exact blen.trans (le_of_eq (length_index_search _ _ _))
          · rw [if_neg h3] at h
            simp at h

/-- C3: create_albums returns at most top_k albums, and every member of every
returned album lies within distance_threshold (in squared L2 distance) of the
cached seed embedding whose neighbor search produced that album. -/
theorem greedy_albums_cap_and_seed (e e1 : SearchEngine)
    (shuffle : List Int → List Int) (cache : Int → Option (List ℚ))
    (top_k : Nat) (thr : ℚ) (asize : Nat) (out : List (List Int))
    (hl : e.load = .ok e1)
    (hout : e.create_albums shuffle cache top_k thr asize = .ok out) :
    out.length ≤ top_k ∧
      ∀ a ∈ out, ∃ sid emb, cache sid = some emb ∧
        ∀ m ∈ a, ∃ v, (m, v) ∈ e1.index.entries ∧ sqDist emb v ≤ thr := by
  simp only [SearchEngine.create_albums, hl] at hout
  by_cases h0 : e1.index.entries.length = 0
  · rw [if_pos h0] at hout
    cases hout
    simp
  · rw [if_neg h0] at hout
    constructor
    · simpa using albumsLoop_length _ _ _ _ _ _ _ _ _ hout
    · exact albumsLoop_seed _ _ _ _ _ _ _ _ _ hout (by simp)

/-- C3 witness: two far-apart vectors yield two singleton albums, each within
threshold of its own seed. -/
theorem greedy_albums_cap_and_seed_witness :
    ([[(1 : Int)], [2]] : List (List Int)).length ≤ 5 ∧
      ∀ a ∈ ([[(1 : Int)], [2]] : List (List Int)), ∃ sid emb,
        sampleCache sid = some emb ∧
        ∀ m ∈ a, ∃ v, (m, v) ∈ sampleIndex.entries ∧ sqDist emb v ≤ 3 / 2 :=
  greedy_albums_cap_and_seed sampleEngine
    ⟨1, some (writeIndex sampleIndex), sampleIndex⟩ id sampleCache 5 (3 / 2) 5
    [[1], [2]] (by with_unfolding_all decide) (by with_unfolding_all decide)

/-- C10: the albums from one create_albums call are pairwise disjoint and
duplicate-free, and each holds at most album_size identifiers. -/
theorem greedy_albums_disjoint_nodup_sized (e : SearchEngine)
    (shuffle : List Int → List Int) (cache : Int → Option (List ℚ))
    (top_k : Nat) (thr : ℚ) (asize : Nat) (out : List (List Int))
    (hout : e.create_albums shuffle cache top_k thr asize = .ok out) :
    List.Pairwise (fun a b => ∀ x ∈ a, x ∉ b) out ∧
      ∀ a ∈ out, a.Nodup ∧ a.length ≤ asize := by
  cases hl : e.load with
  | error err =>
    simp only [SearchEngine.create_albums, hl] at hout
    exact absurd hout (by simp)
  | ok e1 =>
    simp only [SearchEngine.create_albums, hl] at hout
    by_cases h0 : e1.index.entries.length = 0
    · rw [if_pos h0] at hout
      cases hout
      simp
    · rw [if_neg h0] at hout
      exact albumsLoop_disjoint _ _ _ _ _ _ _ _ _ hout (by simp) (by simp)
        (by simp) (by simp)

/-- C10 witness: the concrete two-album result is disjoint, duplicate-free and
within the size bound. -/
theorem greedy_albums_disjoint_nodup_sized_witness :
    List.Pairwise (fun a b => ∀ x ∈ a, x ∉ b) ([[(1 : Int)], [2]] : List (List Int)) ∧
      ∀ a ∈ ([[(1 : Int)], [2]] : List (List Int)), a.Nodup ∧ a.length ≤ 5 :=
  greedy_albums_disjoint_nodup_sized sampleEngine id sampleCache 5 (3 / 2) 5
    [[1], [2]] (by with_unfolding_all decide)

/-! Helper lemmas about the k-means model. -/

theorem pseudoPerm_length :
    ∀ (fuel seed : Nat) (l : List (List ℚ)), l.length = fuel →
      (pseudoPerm fuel seed l).length = l.length := by
  intro fuel
  induction fuel with
  | zero =>
    intro seed l h
    simp only [pseudoPerm, List.length_nil]
    omega
  | succ n ih =>
    intro seed l h
    have hne : ¬l.length = 0 := by omega
    simp only [pseudoPerm, if_neg hne, List.length_cons]
    have herase : (l.eraseIdx (seed % l.length)).length = n := by
      rw [List.length_eraseIdx_of_lt (Nat.mod_lt _ (by omega))]
      omega
    rw [ih (lcgNext seed) _ herase, herase]
    omega

theorem lloydStep_length (pts cents : List (List ℚ)) :
    (lloydStep pts cents).length = cents.length := by
  simp [lloydStep, List.enum_length]

theorem lloydIter_length (pts : List (List ℚ)) :
    ∀ (n : Nat) (cents : List (List ℚ)),
      (lloydIter pts n cents).length = cents.length := by
  intro n
  induction n with
  | zero => intro cents; rfl
  | succ m ih =>
    intro cents
    simp only [lloydIter]
    rw [ih, lloydStep_length]

theorem kmeansCentroids_length (k niter : Nat) (seed : Int)
    (pts : List (List ℚ)) (hk : k ≤ pts.length) :
    (kmeansCentroids k niter seed pts).length = k := by
  unfold kmeansCentroids
  rw [lloydIter_length, List.length_take, pseudoPerm_length _ _ _ rfl]
  omega

theorem argminGo_lt (xs : List ℚ) :
    ∀ (bv : ℚ) (best cur : Nat), best < cur →
      argminGo xs bv best cur < cur + xs.length := by
  induction xs with
  | nil =>
    intro bv best cur h
    simpa [argminGo] using h
  | cons x rest ih =>
    intro bv best cur h
    simp only [argminGo, List.length_cons]
    split
    · have := ih x cur (cur + 1) (by omega)
      omega
    · have := ih bv best (cur + 1) (by omega)
      omega

theorem argminIdx_lt (l : List ℚ) (h : l ≠ []) : argminIdx l < l.length := by
  cases l with
  | nil => exact absurd rfl h
  | cons x xs =>
    have := argminGo_lt xs x 0 1 (by omega)
    simp only [argminIdx, List.length_cons]
    omega

theorem assignPoint_lt (cents : List (List ℚ)) (p : List ℚ) (h : cents ≠ []) :
    assignPoint cents p < cents.length := by
  have hmap : (cents.map (fun c => sqDist p c)) ≠ [] := by
    simpa using h
  have := argminIdx_lt _ hmap
  simpa [assignPoint, List.length_map] using this

/-- Grouping a cluster assignment by cluster index and dropping empty groups
yields at most top_k groups, all non-empty, pairwise disjoint, covering exactly
the assigned identifiers, provided every assignment is below top_k and the
identifiers are distinct. -/
theorem grouping_spec (top_k : Nat) (assigned : List (Int × Nat))
    (albums : List (List Int))
    (halb : albums = ((List.range top_k).map
        (fun c => (assigned.filter (fun a => decide (a.2 = c))).map Prod.fst)).filter
      (fun alb => decide (alb ≠ [])))
    (hlt : ∀ pr ∈ assigned, pr.2 < top_k)
    (hnd : (assigned.map Prod.fst).Nodup) :
    albums.length ≤ top_k ∧ (∀ a ∈ albums, a ≠ []) ∧
      List.Pairwise (fun a b => ∀ x ∈ a, x ∉ b) albums ∧
      (∀ i : Int, i ∈ assigned.map Prod.fst ↔ ∃ a ∈ albums, i ∈ a) := by
  subst halb
  refine ⟨?_, ?_, ?_, ?_⟩
  · exact le_trans (List.length_filter_le _ _) (by simp)
  · intro a ha
    simpa using (List.mem_filter.mp ha).2
  · apply List.Pairwise.filter
    rw [List.pairwise_map]
    refine (List.pairwise_lt_range top_k).imp ?_
    intro c c2 hlt2 x hx hx2
    obtain ⟨pr, hpr, hpr1⟩ := List.mem_map.mp hx
    obtain ⟨pr2, hpr2, hpr21⟩ := List.mem_map.mp hx2
    have hprA : pr ∈ assigned := (List.mem_filter.mp hpr).1
    have hpr2A : pr2 ∈ assigned := (List.mem_filter.mp hpr2).1
    have hc : pr.2 = c := by simpa using (List.mem_filter.mp hpr).2
    have hc2 : pr2.2 = c2 := by simpa using (List.mem_filter.mp hpr2).2
    have heq : pr = pr2 :=
      List.inj_on_of_nodup_map hnd hprA hpr2A (by rw [hpr1, hpr21])
    rw [heq, hc2] at hc
    omega
  · intro i
    constructor
    · intro hi
      obtain ⟨pr, hpr, hpr1⟩ := List.mem_map.mp hi
      have hmem : i ∈ (assigned.filter (fun a => decide (a.2 = pr.2))).map Prod.fst := by
        refine List.mem_map.mpr ⟨pr, ?_, hpr1⟩
        exact List.mem_filter.mpr ⟨hpr, by simp⟩
      refine ⟨(assigned.filter (fun a => decide (a.2 = pr.2))).map Prod.fst, ?_, hmem⟩
      refine List.mem_filter.mpr ⟨?_, ?_⟩
      · exact List.mem_map.mpr ⟨pr.2, List.mem_range.mpr (hlt pr hpr), rfl⟩
      · simpa using List.ne_nil_of_mem hmem
    · rintro ⟨a, ha, hia⟩
      have ha2 := (List.mem_filter.mp ha).1
      obtain ⟨c, -, rfl⟩ := List.mem_map.mp ha2
      obtain ⟨pr, hpr, hpr1⟩ := List.mem_map.mp hia
      exact List.mem_map.mpr ⟨pr, (List.mem_filter.mp hpr).1, hpr1⟩

/-- C2: with at least top_k (with top_k at least 1) stored vectors carrying
distinct identifiers, create_albums_kmeans returns at most top_k albums, all
non-empty, pairwise disjoint, whose union is exactly the stored identifier
set. -/
theorem kmeans_albums_partition (e e1 : SearchEngine) (top_k : Nat) (seed : Int)
    (hl : e.load = .ok e1) (hk : 1 ≤ top_k)
    (hn : top_k ≤ e1.index.entries.length)
    (hd : e1.index.d = e.dim)
    (hnd : (e1.index.entries.map Prod.fst).Nodup) :
    ∃ albums, e.create_albums_kmeans top_k seed = .ok albums ∧
      albums.length ≤ top_k ∧ (∀ a ∈ albums, a ≠ []) ∧
      List.Pairwise (fun a b => ∀ x ∈ a, x ∉ b) albums ∧
      (∀ i : Int, i ∈ e1.index.entries.map Prod.fst ↔ ∃ a ∈ albums, i ∈ a) := by
  have hcents : (kmeansCentroids top_k 20 seed (e1.index.entries.map Prod.snd)).length
      = top_k :=
    kmeansCentroids_length _ _ _ _ (by simpa using hn)
  have hcne : kmeansCentroids top_k 20 seed (e1.index.entries.map Prod.snd) ≠ [] := by
    intro hnil
    rw [hnil] at hcents
    simp only [List.length_nil] at hcents
    omega
  have hmapfst : (e1.index.entries.map
      (fun ent => (ent.1, assignPoint
        (kmeansCentroids top_k 20 seed (e1.index.entries.map Prod.snd)) ent.2))).map Prod.fst
      = e1.index.entries.map Prod.fst := by
    rw [List.map_map]
    rfl
  have hlt : ∀ pr ∈ e1.index.entries.map
      (fun ent => (ent.1, assignPoint
        (kmeansCentroids top_k 20 seed (e1.index.entries.map Prod.snd)) ent.2)),
      pr.2 < top_k := by
    intro pr hpr
    obtain ⟨ent, -, rfl⟩ := List.mem_map.mp hpr
    simpa [hcents] using assignPoint_lt _ ent.2 hcne
  obtain ⟨hlen2, hne2, hpw2, huni2⟩ := grouping_spec top_k
    (e1.index.entries.map
      (fun ent => (ent.1, assignPoint
        (kmeansCentroids top_k 20 seed (e1.index.entries.map Prod.snd)) ent.2)))
    _ rfl hlt (by rw [hmapfst]; exact hnd)
  refine ⟨_, ?_, hlen2, hne2, hpw2, ?_⟩
  · simp only [SearchEngine.create_albums_kmeans, hl]
    rw [if_neg (by omega), if_pos hd]
  · intro i
    rw [← hmapfst]
    exact huni2 i

/-- C2 witness: both sample vectors land in the single requested cluster. -/
theorem kmeans_albums_partition_witness :
    ∃ albums, sampleEngine.create_albums_kmeans 1 42 = .ok albums ∧
      albums.length ≤ 1 ∧ (∀ a ∈ albums, a ≠ []) ∧
      List.Pairwise (fun a b => ∀ x ∈ a, x ∉ b) albums ∧
      (∀ i : Int, i ∈ sampleIndex.entries.map Prod.fst ↔ ∃ a ∈ albums, i ∈ a) :=
  kmeans_albums_partition sampleEngine
    ⟨1, some (writeIndex sampleIndex), sampleIndex⟩ 1 42
    (by with_unfolding_all decide) (by omega) (by with_unfolding_all decide) rfl
    (by with_unfolding_all decide)

/-- C6: the kmeans clustering result is a function of the persisted store
content, the configured dimension, the cluster count and the seed alone — it
does not depend on the in-memory index — so two calls with identical stored
data and the same seed agree. -/
theorem kmeans_deterministic_for_seed (e1 e2 : SearchEngine) (top_k : Nat)
    (seed : Int) (hdim : e1.dim = e2.dim) (hdisk : e1.disk = e2.disk) :
    e1.create_albums_kmeans top_k seed = e2.create_albums_kmeans top_k seed := by
  cases hd2 : e2.disk with
  | none =>
    simp only [SearchEngine.create_albums_kmeans, SearchEngine.load, hdisk, hd2, hdim]
  | some bytes =>
    cases hr : readIndex bytes with
    | none =>
      simp only [SearchEngine.create_albums_kmeans, SearchEngine.load, hdisk, hd2, hr]
    | some idx =>
      simp only [SearchEngine.create_albums_kmeans, SearchEngine.load, hdisk, hd2, hr, hdim]

/-- C6 witness: two engines with the same (missing) index file and dimension but
different in-memory indexes cluster identically. -/
theorem kmeans_deterministic_for_seed_witness :
    (SearchEngine.mk 1 none sampleIndex).create_albums_kmeans 1 42 =
      (SearchEngine.mk 1 none ⟨1, []⟩).create_albums_kmeans 1 42 :=
  kmeans_deterministic_for_seed (SearchEngine.mk 1 none sampleIndex)
    (SearchEngine.mk 1 none ⟨1, []⟩) 1 42 rfl rfl

end Cloudzy
